import Mathlib

/-!
# Verification of the AOC-2025 puzzle solvers

Shallow embedding of the Rust solvers in `src/`, together with theorems
settling the specification claims.  Strings are modelled as `List Char`
(all inputs are ASCII, so Rust byte indices coincide with character
indices); machine integers (`i32`, `i64`) are modelled as `Int`, and
Rust panics are modelled by `Option` results (`none` = panic).
-/

set_option maxRecDepth 8000

namespace AOC

/-! ## Shared string utilities -/

/-- Model of Rust `str::split` with a single-character pattern: splits the
string at every occurrence of `sep`, keeping empty fragments (so a trailing
separator yields a trailing empty fragment, and the empty string yields one
empty fragment). -/
def splitSep (sep : Char) : List Char → List (List Char)
  | [] => [[]]
  | c :: rest =>
    if c = sep then [] :: splitSep sep rest
    else
      match splitSep sep rest with
      | [] => [[c]]
      | r :: rs => (c :: r) :: rs


/-- Model of Rust `str::lines`: split on `'\n'` and drop one trailing empty
fragment produced by a final newline (carriage returns are not modelled;
the inputs are LF-only). -/
def rustLines (s : List Char) : List (List Char) :=
  let parts := splitSep '\n' s
  if parts.getLast? = some [] then parts.dropLast else parts


/-- Model of Rust `str::trim` for the space-only whitespace occurring in the
inputs: removes leading and trailing `' '` characters. -/
def rustTrim (l : List Char) : List Char :=
  ((l.dropWhile (· = ' ')).reverse.dropWhile (· = ' ')).reverse


/-- Numeric value of an ASCII digit character, `none` on anything else. -/
def digitVal (c : Char) : Option Nat :=
  if '0' ≤ c ∧ c ≤ '9' then some (c.toNat - '0'.toNat) else none


/-- Parse a non-empty all-digit string as a natural number; `none` (panic /
`Err` in Rust) on the empty string or on any non-digit character. -/
def parseNatDigits (cs : List Char) : Option Nat :=
  match cs with
  | [] => none
  | _ => cs.foldlM (fun acc c => (digitVal c).map fun d => acc * 10 + d) 0


/-- Model of Rust `str::parse` for signed integer types: an optional sign
followed by at least one digit, failing (`none`) on an empty digit part, an
invalid character, or overflow past the given positive/negative magnitude
bounds. -/
def parseIntRust (maxPos maxNeg : Nat) (cs : List Char) : Option Int :=
  match cs with
  | '+' :: rest => (parseNatDigits rest).bind fun n =>
      if n ≤ maxPos then some (n : Int) else none
  | '-' :: rest => (parseNatDigits rest).bind fun n =>
      if n ≤ maxNeg then some (-(n : Int)) else none
  | _ => (parseNatDigits cs).bind fun n =>
      if n ≤ maxPos then some (n : Int) else none


/-- Rust `str::parse::<i32>`. -/
def parse_i32 (cs : List Char) : Option Int := parseIntRust 2147483647 2147483648 cs


/-- Rust `str::parse::<i64>`. -/
def parse_i64 (cs : List Char) : Option Int :=
  parseIntRust 9223372036854775807 9223372036854775808 cs


/-- `mapOption f l` applies the fallible `f` to every element, failing if any
application fails (models a Rust loop whose body can panic while building a
vector). -/
def mapOption (f : α → Option β) : List α → Option (List β)
  | [] => some []
  | a :: l =>
    match f a, mapOption f l with
    | some b, some bs => some (b :: bs)
    | _, _ => none


/-- Value of a digit list read as a decimal numeral (most significant first). -/
def digitsToNat (l : List Nat) : Nat := l.foldl (fun acc d => acc * 10 + d) 0

namespace Day01

/-! ## Day 1: circular dial simulator (`src/src/day01/part1.rs`, `part2.rs`)

The loop body shared by both parts: one unit step of the dial, with the
two wrap-around checks written exactly as in the source. -/

/-- One iteration of the `while count > 0` loop body (without the
zero-pass check): increment or decrement, then wrap `> 99` to `0` and
`< 0` to `99`. -/
def rotate_step (right : Bool) (pos : Int) : Int :=
  let u := if right then pos + 1 else pos - 1
  let u := if u > 99 then 0 else u
  if u < 0 then 99 else u

namespace Part1

/-- The `while` loop of part 1's `rotate_dial`, iterated `count` times. -/
def rotate_go : Nat → Int → Bool → Int
  | 0, pos, _ => pos
  | c + 1, pos, right => rotate_go c (rotate_step right pos) right


/-- `rotate_dial` of day 1 part 1: read the direction from the first
character, parse `command[1..]` as `i32` (`none` models the `unwrap`
panic), then step unit by unit. -/
def rotate_dial (start_position : Int) (command : List Char) : Option Int :=
  (parse_i32 (command.drop 1)).map fun count =>
    rotate_go count.toNat start_position (command.head? = some 'R')


/-- The command-processing loop of part 1's `solve`: thread the dial and
count the commands that end on position 0. -/
def solve_go : Int → Nat → List (List Char) → Option Nat
  | _, cnt, [] => some cnt
  | dial, cnt, c :: rest =>
    match rotate_dial dial c with
    | none => none
    | some d => solve_go d (if d = 0 then cnt + 1 else cnt) rest


/-- `solve` of day 1 part 1: split the input on `"\n"` and process every
command starting from dial position 50. -/
def solve (input : List Char) : Option Nat :=
  solve_go 50 0 (splitSep '\n' input)


/-- The successive dial values seen by `solve` (one entry per processed
command, cut short at the first panicking command). -/
def dialStates : Int → List (List Char) → List Int
  | _, [] => []
  | d, c :: rest =>
    match rotate_dial d c with
    | none => []
    | some d' => d' :: dialStates d' rest

end Part1
namespace Part2

/-- The `while` loop of part 2's `rotate_dial`, iterated `count` times,
threading the position and the zero-pass counter. -/
def rotate_go : Nat → Int → Int → Bool → Int × Int
  | 0, pos, zp, _ => (pos, zp)
  | c + 1, pos, zp, right =>
    let u := rotate_step right pos
    rotate_go c u (if u = 0 then zp + 1 else zp) right


/-- `rotate_dial` of day 1 part 2: like part 1 but also returns how often
position 0 was hit during the rotation. -/
def rotate_dial (start_position : Int) (command : List Char) : Option (Int × Int) :=
  (parse_i32 (command.drop 1)).map fun count =>
    rotate_go count.toNat start_position 0 (command.head? = some 'R')


/-- The command-processing loop of part 2's `solve`: thread the dial and
accumulate the zero passes of every command. -/
def solve_go : Int → Int → List (List Char) → Option Int
  | _, cnt, [] => some cnt
  | dial, cnt, c :: rest =>
    match rotate_dial dial c with
    | none => none
    | some u => solve_go u.1 (cnt + u.2) rest


/-- `solve` of day 1 part 2. -/
def solve (input : List Char) : Option Int :=
  solve_go 50 0 (splitSep '\n' input)


/-- The successive dial values seen by part 2's `solve`. -/
def dialStates : Int → List (List Char) → List Int
  | _, [] => []
  | d, c :: rest =>
    match rotate_dial d c with
    | none => []
    | some u => u.1 :: dialStates u.1 rest

end Part2

/-! ### Specification-side description of the dial

The wrapped position after `k` unit steps, in closed modular form
(`99 ≡ -1 (mod 100)` expresses a left step without integer subtraction),
and the number of unit steps among the first `m` that land on 0. -/

/-- Wrapped dial position after `k` unit steps from `p`. -/
def specPos (p : Int) (right : Bool) (k : Nat) : Int :=
  if right then (p + k) % 100 else (p + 99 * k) % 100


/-- Number of unit steps `k ∈ 1..=m` from `p` whose resulting wrapped
position is 0. -/
def specZeroPasses (p : Int) (right : Bool) (m : Nat) : Nat :=
  (List.range m).countP fun j => decide (specPos p right (j + 1) = 0)

end Day01
namespace Day02
namespace Part1

/-! ## Day 2: repeated-block ID validators (`src/src/day02/part1.rs`, `part2.rs`) -/

/-- `is_invalid_id` of day 2 part 1: the ID's digit string is invalid iff
the slice `id[0..len/2]` equals the slice `id[len/2..len]`. -/
def is_invalid_id (id : List Char) : Bool :=
  decide (id.take (id.length / 2) = id.drop (id.length / 2))

end Part1
namespace Part2

/-- `is_invalid_id` of day 2 part 2: for every block count
`elements ∈ 2..=len` dividing the length, test whether all `elements`
blocks of length `len / elements` equal the first block. -/
def is_invalid_id (id : List Char) : Bool :=
  (List.range' 2 (id.length - 1)).any fun elements =>
    if id.length % elements ≠ 0 then false
    else
      (List.range' 1 (elements - 1)).all fun t =>
        decide (id.take (id.length / elements)
          = (id.drop (id.length / elements * t)).take (id.length / elements))

end Part2
end Day02
namespace Day03

/-! ## Day 3: greedy digit selection (`src/src/day03/part1.rs`, `part2.rs`)

Banks are modelled as lists of digit values (the result of the
single-character `parse` calls the source performs on each position). -/

/-- The scanning loop of `find_highest_number`: `i` is the next position,
`index`/`value` the position and value of the current running maximum
(both start at 0 as in the source, and only a strictly greater digit
updates them). -/
def fhn_go : List Nat → Nat → Nat → Nat → Nat
  | [], _, index, _ => index
  | d :: rest, i, index, value =>
    if value < d then fhn_go rest (i + 1) i d else fhn_go rest (i + 1) index value


/-- `find_highest_number`: the index of the first occurrence of the largest
digit of the slice (identical in both parts of day 3). -/
def find_highest_number (range : List Nat) : Nat := fhn_go range 0 0 0

namespace Part1

/-- `find_best_joltage` of day 3 part 1: best digit over all but the last
position, then best digit strictly to its right; the two digits form a
two-digit number. -/
def find_best_joltage (bank : List Nat) : Nat :=
  let first_slice := bank.take (bank.length - 1)
  let first_index := find_highest_number first_slice
  let second_slice := bank.drop (first_index + 1)
  let second_index := find_highest_number second_slice
  first_slice.getD first_index 0 * 10 + second_slice.getD second_index 0

end Part1
namespace Part2

/-- The selection loop of part 2's `find_best_joltage`: `rem + 1` digits
remain to be picked at step `i = 12 - rem`, the window is
`bank[start_index .. bank.len() - 12 + i]`, and the cursor advances past
the chosen position. -/
def fbj_go (bank : List Nat) : Nat → Nat → List Nat
  | _, 0 => []
  | start_index, rem + 1 =>
    let end_index := bank.length - 12 + (12 - rem)
    let slice := (bank.drop start_index).take (end_index - start_index)
    let found_index := find_highest_number slice
    slice.getD found_index 0 :: fbj_go bank (start_index + found_index + 1) rem


/-- `find_best_joltage` of day 3 part 2: twelve greedy windowed picks,
concatenated and read as a number. -/
def find_best_joltage (bank : List Nat) : Nat := digitsToNat (fbj_go bank 0 12)

end Part2

/-- Specification-side uniform greedy: to pick `j` digits from `s`, search
the window that leaves `j - 1` digits after it, take the first maximum, and
recurse past it.  Part 1 is the instance `j = 2`, part 2 the instance
`j = 12`. -/
def greedy_select : Nat → List Nat → List Nat
  | 0, _ => []
  | j + 1, s =>
    let w := s.take (s.length - j)
    let m := find_highest_number w
    w.getD m 0 :: greedy_select j (s.drop (m + 1))

end Day03
namespace Day04

/-! ## Day 4: iterative grid erosion (`src/src/day04/part1.rs`, `part2.rs`) -/

/-- A grid of occupancy cells (`true` = `'@'`). -/
abbrev Grid := List (List Bool)


/-- Read the cell at row `h`, column `w` (`false` outside the grid; inside
`solve` every access is within the padded grid). -/
def getCell (g : Grid) (h w : Nat) : Bool := (g.getD h []).getD w false


/-- Write the cell at row `h`, column `w` (no-op outside the grid). -/
def setCell (g : Grid) (h w : Nat) (b : Bool) : Grid :=
  g.set h ((g.getD h []).set w b)


/-- `count_rolls_around_position`: number of occupied cells among the eight
neighbours (identical in both parts of day 4). -/
def count_rolls_around_position (g : Grid) (h w : Nat) : Nat :=
  (if getCell g (h - 1) (w - 1) then 1 else 0)
  + (if getCell g (h - 1) w then 1 else 0)
  + (if getCell g (h - 1) (w + 1) then 1 else 0)
  + (if getCell g h (w - 1) then 1 else 0)
  + (if getCell g h (w + 1) then 1 else 0)
  + (if getCell g (h + 1) (w - 1) then 1 else 0)
  + (if getCell g (h + 1) w then 1 else 0)
  + (if getCell g (h + 1) (w + 1) then 1 else 0)


/-- `parse_input_to_bool_grid`: one row per line, `true` exactly at `'@'`. -/
def parse_input_to_bool_grid (input : List Char) : Grid :=
  (rustLines input).map fun line => line.map fun c => c == '@'


/-- `pad_grid`: a new all-`false` row on top and bottom, then a `false` cell
at both ends of every row (the Rust code reads the width from `grid[0]` and
panics on an empty grid; the model uses the empty row as default). -/
def pad_grid (g : Grid) : Grid :=
  (([List.replicate (g.getD 0 []).length false] ++ g)
    ++ [List.replicate (g.getD 0 []).length false]).map
    fun row => [false] ++ row ++ [false]


/-- The row-major interior positions `1 ≤ h < height - 1`,
`1 ≤ w < width - 1` both sweep loops iterate over. -/
def sweepPositions (height width : Nat) : List (Nat × Nat) :=
  (List.range' 1 (height - 2)).flatMap fun h =>
    (List.range' 1 (width - 2)).map fun w => (h, w)


/-- One sweep over the given positions: remove (set to `false`) every
still-occupied cell with fewer than four occupied neighbours, immediately
visible to later positions, counting removals. -/
def sweepCells : List (Nat × Nat) → Grid → Nat → Grid × Nat
  | [], g, cnt => (g, cnt)
  | p :: ps, g, cnt =>
    if getCell g p.1 p.2 = true ∧ count_rolls_around_position g p.1 p.2 < 4 then
      sweepCells ps (setCell g p.1 p.2 false) (cnt + 1)
    else
      sweepCells ps g cnt


/-- Number of occupied cells of the grid. -/
def occCount (g : Grid) : Nat := (g.map fun row => row.count true).sum


/-- The outer `loop` of part 2's `solve`, with explicit fuel: sweep, stop
when a sweep removed nothing, otherwise continue and accumulate; `none`
models running out of fuel (shown below never to happen for fuel
`occCount g + 1`). -/
def erodeFuel (ps : List (Nat × Nat)) : Nat → Grid → Option (Grid × Nat)
  | 0, _ => none
  | f + 1, g =>
    if (sweepCells ps g 0).2 = 0 then some ((sweepCells ps g 0).1, 0)
    else
      match erodeFuel ps f (sweepCells ps g 0).1 with
      | none => none
      | some (gf, m) => some (gf, (sweepCells ps g 0).2 + m)

namespace Part1

/-- `solve` of day 4 part 1: count the occupied interior cells of the
padded grid that have fewer than four occupied neighbours, all judged on
the initial grid. -/
def solve (input : List Char) : Nat :=
  (sweepPositions (pad_grid (parse_input_to_bool_grid input)).length
      ((pad_grid (parse_input_to_bool_grid input)).getD 0 []).length).countP
    fun p =>
      getCell (pad_grid (parse_input_to_bool_grid input)) p.1 p.2
        && decide (count_rolls_around_position
            (pad_grid (parse_input_to_bool_grid input)) p.1 p.2 < 4)

end Part1
namespace Part2

/-- `solve` of day 4 part 2: erode to the fixed point and return the total
number of removed cells. -/
def solve (input : List Char) : Option Nat :=
  (erodeFuel
      (sweepPositions (pad_grid (parse_input_to_bool_grid input)).length
        ((pad_grid (parse_input_to_bool_grid input)).getD 0 []).length)
      (occCount (pad_grid (parse_input_to_bool_grid input)) + 1)
      (pad_grid (parse_input_to_bool_grid input))).map (·.2)

end Part2
end Day04
namespace Day05

/-! ## Day 5: range-membership filter (`src/src/day05/part1.rs`) -/

/-- The parsing part of `is_id_in_range`: split the range string on `'-'`,
take `values[0]` and `values[1]` and parse both as `i64` (`none` models the
`unwrap`/index panics). -/
def parseRange (range : List Char) : Option (Int × Int) :=
  match (splitSep '-' range)[0]?, (splitSep '-' range)[1]? with
  | some v0, some v1 =>
    match parse_i64 v0, parse_i64 v1 with
    | some s, some e => some (s, e)
    | _, _ => none
  | _, _ => none


/-- `is_id_in_range`: inclusive membership `start <= id <= end`. -/
def is_id_in_range (id : Int) (range : List Char) : Option Bool :=
  (parseRange range).map fun se => decide (id ≥ se.1 ∧ id ≤ se.2)


/-- The inner range loop of `solve`: first matching range wins (`continue
'id`), ranges after a match are not examined. -/
def anyRange (id : Int) : List (List Char) → Option Bool
  | [] => some false
  | r :: rest =>
    match is_id_in_range id r with
    | none => none
    | some true => some true
    | some false => anyRange id rest


/-- The outer ID loop of `solve`: parse each ID line and count those inside
at least one range. -/
def solve_go (ranges : List (List Char)) : List (List Char) → Option Nat
  | [] => some 0
  | idl :: rest =>
    match parse_i64 idl with
    | none => none
    | some v =>
      match anyRange v ranges with
      | none => none
      | some b =>
        match solve_go ranges rest with
        | none => none
        | some c => some (if b then c + 1 else c)


/-- `solve` of day 5: the lines before the first empty line are ranges, the
lines after it are IDs. -/
def solve (input : List Char) : Option Nat :=
  match (rustLines input).findIdx? (fun l => l == ([] : List Char)) with
  | none => none
  | some divider_index =>
    solve_go ((rustLines input).take divider_index)
      ((rustLines input).drop (divider_index + 1))

end Day05
namespace Day06
namespace Part2

/-! ## Day 6: column-wise arithmetic (`src/src/day06/part2.rs`) -/

/-- The column boundary indices of `extract_columns`: every position of the
last line holding a non-space character starts a column. -/
def collum_start_indicies (lastLine : List Char) : List Nat :=
  (List.range lastLine.length).filter fun i => lastLine.getD i ' ' != ' '


/-- Rust slice `line[start..endi]` (`none` models the slice-range panic). -/
def sliceTo (line : List Char) (start endi : Nat) : Option (List Char) :=
  if start ≤ endi ∧ endi ≤ line.length then some ((line.drop start).take (endi - start))
  else none


/-- `extract_columns`: for every boundary `i`, the slice of every line from
`collum_start_indicies[i]` up to (exclusive) `collum_start_indicies[i+1] - 1`,
or to the end of the last line for the final column. -/
def extract_columns (input : List Char) : Option (List (List (List Char))) :=
  match (rustLines input).getLast? with
  | none => none
  | some lastLine =>
    mapOption
      (fun i =>
        mapOption
          (fun line => sliceTo line ((collum_start_indicies lastLine).getD i 0)
            (if i = (collum_start_indicies lastLine).length - 1 then lastLine.length
             else (collum_start_indicies lastLine).getD (i + 1) 0 - 1))
          (rustLines input))
      (List.range (collum_start_indicies lastLine).length)


/-- One data row of `perform_calculation`'s assembly loop: append `line[i]`
to `numbers[i]` for every `i < line.len()` (`none` models the index panic
when the row is longer than `numbers`). -/
def appendRow (numbers : List (List Char)) (line : List Char) : Option (List (List Char)) :=
  if line.length ≤ numbers.length then
    some ((List.range numbers.length).map fun i =>
      numbers.getD i [] ++ if i < line.length then [line.getD i ' '] else [])
  else none


/-- The assembled per-position digit strings after all data rows. -/
def buildNumbers : List (List Char) → List (List Char) → Option (List (List Char))
  | numbers, [] => some numbers
  | numbers, row :: rest =>
    match appendRow numbers row with
    | none => none
    | some numbers' => buildNumbers numbers' rest


/-- The reduction loop over `numbers[1..]` of `perform_calculation`. -/
def foldNums (multiply : Bool) : List (List Char) → Int → Option Int
  | [], acc => some acc
  | n :: rest, acc =>
    match parse_i64 (rustTrim n) with
    | none => none
    | some v => foldNums multiply rest (if multiply then acc * v else acc + v)


/-- `perform_calculation`: the trimmed last row selects `*` or `+`; the
other rows are assembled into one number per character position, trimmed,
parsed and reduced. -/
def perform_calculation (column : List (List Char)) : Option Int :=
  match column.getLast?, column.head? with
  | some lastRow, some firstRow =>
    match buildNumbers (List.replicate firstRow.length []) column.dropLast with
    | none => none
    | some numbers =>
      match numbers with
      | [] => none
      | n0 :: restNums =>
        match parse_i64 (rustTrim n0) with
        | none => none
        | some r0 => foldNums (rustTrim lastRow == ['*']) restNums r0
  | _, _ => none


/-- The summation loop of `solve`. -/
def solveColumns : List (List (List Char)) → Int → Option Int
  | [], acc => some acc
  | c :: rest, acc =>
    match perform_calculation c with
    | none => none
    | some v => solveColumns rest (acc + v)


/-- `solve` of day 6 part 2: sum of all column computations. -/
def solve (input : List Char) : Option Int :=
  match extract_columns input with
  | none => none
  | some cols => solveColumns cols 0

end Part2
end Day06
end AOC

namespace AOC
namespace Day01

theorem rotate_step_range (right : Bool) (p : Int) (h0 : 0 ≤ p) (h1 : p ≤ 99) :
    0 ≤ rotate_step right p ∧ rotate_step right p ≤ 99 := by
  simp only [rotate_step]
  split_ifs <;> omega


theorem specPos_range (p : Int) (right : Bool) (k : Nat) :
    0 ≤ specPos p right k ∧ specPos p right k ≤ 99 := by
  unfold specPos
  split <;> omega


theorem specPos_zero (p : Int) (right : Bool) (h0 : 0 ≤ p) (h1 : p ≤ 99) :
    specPos p right 0 = p := by
  unfold specPos
  split <;> simp <;> omega


theorem rotate_step_spec (right : Bool) (p : Int) (h0 : 0 ≤ p) (h1 : p ≤ 99) :
    rotate_step right p = specPos p right 1 := by
  simp only [rotate_step, specPos]
  rcases right with _ | _ <;> simp <;> split_ifs <;> omega


theorem specPos_succ (p : Int) (right : Bool) (k : Nat) (h0 : 0 ≤ p) (h1 : p ≤ 99) :
    specPos p right (k + 1) = specPos (rotate_step right p) right k := by
  rw [rotate_step_spec right p h0 h1]
  unfold specPos
  rcases right with _ | _ <;> simp <;> omega


theorem Part1.rotate_go_range (m : Nat) :
    ∀ (p : Int) (right : Bool), 0 ≤ p → p ≤ 99 →
      0 ≤ rotate_go m p right ∧ rotate_go m p right ≤ 99 := by
  induction m with
  | zero => intro p right h0 h1; exact ⟨h0, h1⟩
  | succ c ih =>
    intro p right h0 h1
    have h := rotate_step_range right p h0 h1
    exact ih (rotate_step right p) right h.1 h.2


theorem Part2.rotate_go_spec (m : Nat) :
    ∀ (p z : Int) (right : Bool), 0 ≤ p → p ≤ 99 →
      rotate_go m p z right = (specPos p right m, z + (specZeroPasses p right m : Int)) := by
  induction m with
  | zero =>
    intro p z right h0 h1
    simp [rotate_go, specPos_zero p right h0 h1, specZeroPasses]
  | succ c ih =>
    intro p z right h0 h1
    have hstep := rotate_step_range right p h0 h1
    have hrec := ih (rotate_step right p) (if rotate_step right p = 0 then z + 1 else z)
      right hstep.1 hstep.2
    show rotate_go c (rotate_step right p) (if rotate_step right p = 0 then z + 1 else z) right = _
    rw [hrec, specPos_succ p right c h0 h1]
    have hcount : specZeroPasses p right (c + 1)
        = (if rotate_step right p = 0 then 1 else 0)
          + specZeroPasses (rotate_step right p) right c := by
      unfold specZeroPasses
      rw [List.range_succ_eq_map, List.countP_cons, List.countP_map]
      have hfun : ((fun j => decide (specPos p right (j + 1) = 0)) ∘ Nat.succ)
          = fun k => decide (specPos (rotate_step right p) right (k + 1) = 0) := by
        funext j
        simp only [Function.comp_apply, decide_eq_decide]
        rw [show Nat.succ j + 1 = (j + 1) + 1 from rfl, specPos_succ p right (j + 1) h0 h1]
      rw [hfun]
      rw [rotate_step_spec right p h0 h1]
      by_cases hz : specPos p right 1 = 0 <;> simp [hz] <;> omega
    rw [hcount]
    simp only [Prod.mk.injEq, true_and]
    split_ifs <;> push_cast <;> ring


theorem Part2.rotate_go_add (a b : Nat) :
    ∀ (p z : Int) (right : Bool),
      rotate_go (a + b) p z right
        = rotate_go b (rotate_go a p z right).1 (rotate_go a p z right).2 right := by
  induction a with
  | zero => intro p z right; rw [Nat.zero_add]; rfl
  | succ c ih =>
    intro p z right
    rw [show c + 1 + b = (c + b) + 1 from by omega]
    show rotate_go (c + b) (rotate_step right p)
        (if rotate_step right p = 0 then z + 1 else z) right = _
    rw [ih]
    rfl


theorem Part2.rotate_go_lap (z : Int) : rotate_go 100 50 z true = (50, z + 1) := by
  rw [rotate_go_spec 100 50 z true (by norm_num) (by norm_num)]
  have h1 : Day01.specPos 50 true 100 = 50 := by decide
  have h2 : Day01.specZeroPasses 50 true 100 = 1 := by decide
  rw [h1, h2]
  norm_num


theorem Part2.rotate_go_laps (k : Nat) : rotate_go (100 * k) 50 0 true = (50, (k : Int)) := by
  induction k with
  | zero => simp [rotate_go]
  | succ c ih =>
    rw [show 100 * (c + 1) = 100 * c + 100 from by ring, Part2.rotate_go_add, ih]
    rw [Part2.rotate_go_lap]
    push_cast
    norm_num

end Day01

/-! ### Claim C4: part 2 zero-pass counting equals literal unit stepping -/

/-- C4: for every start position in `[0, 99]` and every command whose
magnitude part parses to a non-negative `m`, `rotate_dial` of day 1 part 2
returns a zero-pass count equal to the number of unit steps `k ∈ 1..=m`
whose resulting wrapped position is 0 (and the final wrapped position);
in particular `rotate_dial 50 "R1000" = (50, 10)` (one zero pass per full
lap) and `rotate_dial 99 "R1" = (0, 1)`. -/
theorem day01_part2_zero_pass_count :
    (∀ (p : Int) (cmd : List Char) (m : Int), 0 ≤ p → p ≤ 99 →
      parse_i32 (cmd.drop 1) = some m → 0 ≤ m →
      Day01.Part2.rotate_dial p cmd =
        some (Day01.specPos p (cmd.head? = some 'R') m.toNat,
              (Day01.specZeroPasses p (cmd.head? = some 'R') m.toNat : Int)))
    ∧ Day01.Part2.rotate_dial 50 ("R1000".toList) = some (50, 10)
    ∧ Day01.Part2.rotate_dial 99 ("R1".toList) = some (0, 1) := by
  have hbig : Day01.Part2.rotate_dial 50 ("R1000".toList) = some (50, 10) := by
    show (parse_i32 (("R1000".toList).drop 1)).map _ = _
    rw [show parse_i32 (("R1000".toList).drop 1) = some 1000 from by decide, Option.map_some']
    show some (Day01.Part2.rotate_go (100 * 10) 50 0 true) = some (50, 10)
    rw [Day01.Part2.rotate_go_laps 10]
    norm_num
  refine ⟨?_, hbig, by decide⟩
  intro p cmd m h0 h1 hparse _hm
  unfold Day01.Part2.rotate_dial
  rw [hparse, Option.map_some']
  rw [Day01.Part2.rotate_go_spec m.toNat p 0 _ h0 h1]
  simp


/-- Witness for C4 at `p = 99`, command `"R1"`. -/
theorem day01_part2_zero_pass_count_witness :
    parse_i32 (("R1".toList).drop 1) = some 1 ∧
      Day01.Part2.rotate_dial 99 ("R1".toList) =
        some (Day01.specPos 99 (("R1".toList).head? = some 'R') 1,
              (Day01.specZeroPasses 99 (("R1".toList).head? = some 'R') 1 : Int)) :=
  ⟨by decide, day01_part2_zero_pass_count.1 99 ("R1".toList) 1 (by decide) (by decide)
    (by decide) (by decide)⟩


/-! ### Claim C8: dial position invariant -/

/-- C8: from a start position in `[0, 99]` and any command, the position
returned by `rotate_dial` (day 1 part 1 and part 2) is again in `[0, 99]`;
consequently every dial value reached while `solve` processes its command
list stays in `[0, 99]`. -/
theorem day01_dial_position_invariant :
    (∀ (p : Int) (cmd : List Char) (r : Int), 0 ≤ p → p ≤ 99 →
      Day01.Part1.rotate_dial p cmd = some r → 0 ≤ r ∧ r ≤ 99)
    ∧ (∀ (p : Int) (cmd : List Char) (r z : Int), 0 ≤ p → p ≤ 99 →
      Day01.Part2.rotate_dial p cmd = some (r, z) → 0 ≤ r ∧ r ≤ 99)
    ∧ (∀ (input : List Char) (x : Int),
      x ∈ Day01.Part1.dialStates 50 (splitSep '\n' input) → 0 ≤ x ∧ x ≤ 99)
    ∧ (∀ (input : List Char) (x : Int),
      x ∈ Day01.Part2.dialStates 50 (splitSep '\n' input) → 0 ≤ x ∧ x ≤ 99) := by
  have h1 : ∀ (p : Int) (cmd : List Char) (r : Int), 0 ≤ p → p ≤ 99 →
      Day01.Part1.rotate_dial p cmd = some r → 0 ≤ r ∧ r ≤ 99 := by
    intro p cmd r h0 h99 hr
    unfold Day01.Part1.rotate_dial at hr
    cases hp : parse_i32 (cmd.drop 1) with
    | none => rw [hp] at hr; simp at hr
    | some m =>
      rw [hp, Option.map_some'] at hr
      obtain rfl : Day01.Part1.rotate_go m.toNat p _ = r := Option.some_inj.mp hr
      exact Day01.Part1.rotate_go_range m.toNat p _ h0 h99
  have h2 : ∀ (p : Int) (cmd : List Char) (r z : Int), 0 ≤ p → p ≤ 99 →
      Day01.Part2.rotate_dial p cmd = some (r, z) → 0 ≤ r ∧ r ≤ 99 := by
    intro p cmd r z h0 h99 hr
    unfold Day01.Part2.rotate_dial at hr
    cases hp : parse_i32 (cmd.drop 1) with
    | none => rw [hp] at hr; simp at hr
    | some m =>
      rw [hp, Option.map_some'] at hr
      have := Option.some_inj.mp hr
      have hfst : (Day01.Part2.rotate_go m.toNat p 0 (decide (cmd.head? = some 'R'))).1 = r := by
        rw [this]
      rw [Day01.Part2.rotate_go_spec m.toNat p 0 _ h0 h99] at hfst
      rw [← hfst]
      exact Day01.specPos_range p _ m.toNat
  have h3 : ∀ (cmds : List (List Char)) (d : Int), 0 ≤ d → d ≤ 99 →
      ∀ x ∈ Day01.Part1.dialStates d cmds, 0 ≤ x ∧ x ≤ 99 := by
    intro cmds
    induction cmds with
    | nil => intro d _ _ x hx; simp [Day01.Part1.dialStates] at hx
    | cons c rest ih =>
      intro d h0 h99 x hx
      unfold Day01.Part1.dialStates at hx
      cases hr : Day01.Part1.rotate_dial d c with
      | none => rw [hr] at hx; simp at hx
      | some d' =>
        rw [hr] at hx
        have hd' := h1 d c d' h0 h99 hr
        rcases List.mem_cons.mp hx with rfl | hx'
        · exact hd'
        · exact ih d' hd'.1 hd'.2 x hx'
  have h4 : ∀ (cmds : List (List Char)) (d : Int), 0 ≤ d → d ≤ 99 →
      ∀ x ∈ Day01.Part2.dialStates d cmds, 0 ≤ x ∧ x ≤ 99 := by
    intro cmds
    induction cmds with
    | nil => intro d _ _ x hx; simp [Day01.Part2.dialStates] at hx
    | cons c rest ih =>
      intro d h0 h99 x hx
      unfold Day01.Part2.dialStates at hx
      cases hr : Day01.Part2.rotate_dial d c with
      | none => rw [hr] at hx; simp at hx
      | some u =>
        rw [hr] at hx
        have hd' := h2 d c u.1 u.2 h0 h99 (by rw [hr])
        rcases List.mem_cons.mp hx with rfl | hx'
        · exact hd'
        · exact ih u.1 hd'.1 hd'.2 x hx'
  exact ⟨h1, h2, fun input x hx => h3 _ 50 (by norm_num) (by norm_num) x hx,
    fun input x hx => h4 _ 50 (by norm_num) (by norm_num) x hx⟩


/-- Witness for C8 at `p = 50`, command `"R5"`. -/
theorem day01_dial_position_invariant_witness :
    Day01.Part1.rotate_dial 50 ("R5".toList) = some 55 ∧ (0 ≤ (55 : Int) ∧ (55 : Int) ≤ 99) :=
  ⟨by decide, day01_dial_position_invariant.1 50 ("R5".toList) 55
    (by decide) (by decide) (by decide)⟩


/-! ### Claim C10: trailing newline makes day 1 `solve` panic -/

theorem splitSep_ne_nil (sep : Char) (s : List Char) : splitSep sep s ≠ [] := by
  cases s with
  | nil => simp [splitSep]
  | cons c rest =>
    unfold splitSep
    split
    · simp
    · cases splitSep sep rest <;> simp


theorem splitSep_append_sep (sep : Char) (xs : List Char) :
    splitSep sep (xs ++ [sep]) = splitSep sep xs ++ [[]] := by
  induction xs with
  | nil => simp [splitSep]
  | cons x xs ih =>
    show splitSep sep (x :: (xs ++ [sep])) = _
    unfold splitSep
    split
    · rw [ih]; rfl
    · rw [ih]
      cases h : splitSep sep xs with
      | nil => exact absurd h (splitSep_ne_nil sep xs)
      | cons r rs => simp


theorem Day01.Part1.part1_rotate_dial_nil (d : Int) : Day01.Part1.rotate_dial d [] = none := rfl


theorem Day01.Part2.part2_rotate_dial_nil (d : Int) : Day01.Part2.rotate_dial d [] = none := rfl


theorem Day01.Part1.part1_solve_go_none_of_mem_nil :
    ∀ (cmds : List (List Char)) (d : Int) (cnt : Nat), [] ∈ cmds →
      Day01.Part1.solve_go d cnt cmds = none := by
  intro cmds
  induction cmds with
  | nil => intro d cnt h; simp at h
  | cons c rest ih =>
    intro d cnt h
    unfold Day01.Part1.solve_go
    rcases List.mem_cons.mp h with rfl | h'
    · rw [Day01.Part1.part1_rotate_dial_nil]
    · cases Day01.Part1.rotate_dial d c with
      | none => rfl
      | some d' => exact ih d' _ h'


theorem Day01.Part2.part2_solve_go_none_of_mem_nil :
    ∀ (cmds : List (List Char)) (d cnt : Int), [] ∈ cmds →
      Day01.Part2.solve_go d cnt cmds = none := by
  intro cmds
  induction cmds with
  | nil => intro d cnt h; simp at h
  | cons c rest ih =>
    intro d cnt h
    unfold Day01.Part2.solve_go
    rcases List.mem_cons.mp h with rfl | h'
    · rw [Day01.Part2.part2_rotate_dial_nil]
    · cases Day01.Part2.rotate_dial d c with
      | none => rfl
      | some u => exact ih u.1 _ h'


/-- C10: day 1 `solve` (both parts) aborts (returns `none`, the model of a
panic) on the empty input and on every input ending with a newline, because
the split produces a final empty command and `rotate_dial` fails to parse
the empty magnitude string. -/
theorem day01_solve_trailing_newline_panics :
    ∀ input : List Char, (input = [] ∨ ∃ xs, input = xs ++ ['\n']) →
      Day01.Part1.solve input = none ∧ Day01.Part2.solve input = none := by
  intro input h
  have hmem : [] ∈ splitSep '\n' input := by
    rcases h with rfl | ⟨xs, rfl⟩
    · simp [splitSep]
    · rw [splitSep_append_sep]
      simp
  exact ⟨Day01.Part1.part1_solve_go_none_of_mem_nil _ 50 0 hmem,
    Day01.Part2.part2_solve_go_none_of_mem_nil _ 50 0 hmem⟩


/-- Witness for C10 at the one-character input `"\n"`. -/
theorem day01_solve_trailing_newline_panics_witness :
    Day01.Part1.solve ['\n'] = none ∧ Day01.Part2.solve ['\n'] = none :=
  day01_solve_trailing_newline_panics ['\n'] (Or.inr ⟨[], rfl⟩)

namespace Day02

/-! Helper lemmas about lists that are a block repeated `n` times. -/

theorem length_flatten_replicate (n : Nat) (b : List Char) :
    ((List.replicate n b).flatten).length = n * b.length := by
  induction n with
  | zero => simp
  | succ m ih =>
    rw [List.replicate_succ, List.flatten_cons, List.length_append, ih]
    ring


theorem take_flatten_replicate (n : Nat) (b : List Char) (hn : 1 ≤ n) :
    ((List.replicate n b).flatten).take b.length = b := by
  obtain ⟨m, rfl⟩ : ∃ m, n = m + 1 := ⟨n - 1, by omega⟩
  rw [List.replicate_succ, List.flatten_cons, List.take_left]


theorem drop_flatten_replicate (b : List Char) :
    ∀ t n : Nat, t ≤ n →
      ((List.replicate n b).flatten).drop (b.length * t)
        = (List.replicate (n - t) b).flatten := by
  intro t
  induction t with
  | zero => intro n _; simp
  | succ s ih =>
    intro n hn
    obtain ⟨m, rfl⟩ : ∃ m, n = m + 1 := ⟨n - 1, by omega⟩
    have h1 : b.length * (s + 1) = b.length + b.length * s := by ring
    rw [h1, ← List.drop_drop]
    rw [List.replicate_succ, List.flatten_cons, List.drop_left]
    have hms : m + 1 - (s + 1) = m - s := by omega
    rw [hms]
    exact ih m (by omega)


/-- If a list of length `e * el` has all its `el`-blocks equal to its first
`el`-block, it is that block repeated `e` times. -/
theorem eq_flatten_replicate_of_blocks :
    ∀ (e : Nat) (el : Nat) (id : List Char), id.length = e * el →
      (∀ t < e, (id.drop (el * t)).take el = id.take el) →
      id = (List.replicate e (id.take el)).flatten := by
  intro e
  induction e with
  | zero =>
    intro el id hlen _
    rw [Nat.zero_mul] at hlen
    rw [List.length_eq_zero.mp hlen]
    rfl
  | succ f ih =>
    intro el id hlen hblocks
    have hlen' : (id.drop el).length = f * el := by
      rw [List.length_drop, hlen]; ring_nf; omega
    have hdroptake : ∀ t < f, ((id.drop el).drop (el * t)).take el = (id.drop el).take el := by
      intro t ht
      rw [List.drop_drop]
      have h1 : el + el * t = el * (t + 1) := by ring
      rw [h1, hblocks (t + 1) (by omega)]
      have h2 : (id.drop (el * 1)).take el = id.take el := hblocks 1 (by omega)
      rw [Nat.mul_one] at h2
      rw [h2]
    have hrec := ih el (id.drop el) hlen' hdroptake
    by_cases hf : f = 0
    · subst hf
      conv_lhs => rw [← List.take_append_drop el id]
      rw [List.replicate_succ, List.flatten_cons]
      have hdropnil : id.drop el = [] := by
        apply List.eq_nil_of_length_eq_zero
        rw [List.length_drop]
        omega
      rw [hdropnil]
      rfl
    · have htake : (id.drop el).take el = id.take el := by
        have h2 := hblocks 1 (by omega)
        rw [Nat.mul_one] at h2
        exact h2
      conv_lhs => rw [← List.take_append_drop el id]
      rw [List.replicate_succ, List.flatten_cons]
      conv_lhs => rw [hrec]
      rw [htake]

end Day02

/-! ### Claim C6: day 2 part 1 invalidity predicate -/

/-- C6: for every non-empty digit string, part 1's `is_invalid_id` is true
iff the length is even and the first half equals the second half; in
particular it is false for every odd-length string. -/
theorem day02_part1_invalid_iff_equal_halves (id : List Char) (hne : id ≠ []) :
    (Day02.Part1.is_invalid_id id = true ↔
      id.length % 2 = 0 ∧ id.take (id.length / 2) = id.drop (id.length / 2))
    ∧ (id.length % 2 = 1 → Day02.Part1.is_invalid_id id = false) := by
  have hkey : id.take (id.length / 2) = id.drop (id.length / 2) → id.length % 2 = 0 := by
    intro h
    have hlen := congrArg List.length h
    rw [List.length_take, List.length_drop] at hlen
    omega
  constructor
  · unfold Day02.Part1.is_invalid_id
    rw [decide_eq_true_iff]
    exact ⟨fun h => ⟨hkey h, h⟩, fun h => h.2⟩
  · intro hodd
    unfold Day02.Part1.is_invalid_id
    rw [decide_eq_false_iff_not]
    intro h
    have := hkey h
    omega


/-- Witness for C6 at `id = "99"`. -/
theorem day02_part1_invalid_iff_equal_halves_witness :
    (Day02.Part1.is_invalid_id ("99".toList) = true ↔
      ("99".toList).length % 2 = 0 ∧
        ("99".toList).take (("99".toList).length / 2)
          = ("99".toList).drop (("99".toList).length / 2))
    ∧ (("99".toList).length % 2 = 1 → Day02.Part1.is_invalid_id ("99".toList) = false) :=
  day02_part1_invalid_iff_equal_halves ("99".toList) (by decide)


/-! ### Claim C3: day 2 part 2 invalidity predicate -/

/-- C3: for every non-empty digit string, part 2's `is_invalid_id` is true
iff the string is some block repeated at least twice. -/
theorem day02_part2_invalid_iff_repetition (id : List Char) (hne : id ≠ []) :
    Day02.Part2.is_invalid_id id = true ↔
      ∃ (b : List Char) (n : Nat), 2 ≤ n ∧ id = (List.replicate n b).flatten := by
  have hpos : 1 ≤ id.length := List.length_pos.mpr hne
  unfold Day02.Part2.is_invalid_id
  rw [List.any_eq_true]
  constructor
  · rintro ⟨e, hmem, hpred⟩
    rw [List.mem_range'_1] at hmem
    by_cases hmod : id.length % e ≠ 0
    · rw [if_pos hmod] at hpred
      exact absurd hpred (by simp)
    · rw [if_neg hmod] at hpred
      push_neg at hmod
      rw [List.all_eq_true] at hpred
      refine ⟨id.take (id.length / e), e, hmem.1, ?_⟩
      have hdvd : e ∣ id.length := Nat.dvd_of_mod_eq_zero hmod
      have hlen : id.length = e * (id.length / e) := (Nat.mul_div_cancel' hdvd).symm
      apply Day02.eq_flatten_replicate_of_blocks e (id.length / e) id hlen
      intro t ht
      rcases Nat.eq_zero_or_pos t with rfl | htpos
      · simp
      · have := hpred t (List.mem_range'_1.mpr ⟨htpos, by omega⟩)
        rw [decide_eq_true_iff] at this
        exact this.symm
  · rintro ⟨b, n, hn, rfl⟩
    have hbne : b ≠ [] := by
      rintro rfl
      apply hne
      apply List.eq_nil_of_length_eq_zero
      rw [Day02.length_flatten_replicate]
      simp
    have hbpos : 1 ≤ b.length := List.length_pos.mpr hbne
    have hlen : ((List.replicate n b).flatten).length = n * b.length :=
      Day02.length_flatten_replicate n b
    refine ⟨n, List.mem_range'_1.mpr ⟨hn, ?_⟩, ?_⟩
    · have : n ≤ n * b.length := Nat.le_mul_of_pos_right n hbpos
      omega
    · have hmod : ((List.replicate n b).flatten).length % n = 0 := by
        rw [hlen]; exact Nat.mul_mod_right n b.length
      rw [if_neg (by omega)]
      rw [List.all_eq_true]
      intro t hmem
      rw [List.mem_range'_1] at hmem
      rw [decide_eq_true_iff]
      have hel : ((List.replicate n b).flatten).length / n = b.length := by
        rw [hlen]; exact Nat.mul_div_cancel_left b.length (by omega)
      rw [hel]
      rw [Day02.take_flatten_replicate n b (by omega)]
      rw [Day02.drop_flatten_replicate b t n (by omega)]
      rw [Day02.take_flatten_replicate (n - t) b (by omega)]


/-- Witness for C3 at `id = "212121"`. -/
theorem day02_part2_invalid_iff_repetition_witness :
    Day02.Part2.is_invalid_id ("212121".toList) = true ↔
      ∃ (b : List Char) (n : Nat), 2 ≤ n ∧
        "212121".toList = (List.replicate n b).flatten :=
  day02_part2_invalid_iff_repetition ("212121".toList) (by decide)

namespace Day03

/-! Properties of `find_highest_number`: it returns the index of the first
occurrence of the maximum. -/

theorem getD_le_foldr_max (l : List Nat) (q : Nat) : l.getD q 0 ≤ l.foldr max 0 := by
  induction l generalizing q with
  | nil => simp [List.getD]
  | cons d rest ih =>
    cases q with
    | zero => simpa using Nat.le_max_left d (rest.foldr max 0)
    | succ q' =>
      calc (d :: rest).getD (q' + 1) 0 = rest.getD q' 0 := by simp [List.getD]
        _ ≤ rest.foldr max 0 := ih q'
        _ ≤ max d (rest.foldr max 0) := Nat.le_max_right _ _
        _ = (d :: rest).foldr max 0 := by simp


theorem foldr_max_append_singleton (l : List Nat) (d : Nat) :
    (l ++ [d]).foldr max 0 = max (l.foldr max 0) d := by
  induction l with
  | nil => simp
  | cons x rest ih =>
    simp only [List.cons_append, List.foldr_cons, ih]
    omega


theorem fhn_go_spec :
    ∀ (rest done : List Nat) (index value : Nat),
      value = done.foldr max 0 →
      ((done = [] ∧ index = 0 ∧ value = 0) ∨
        (index < done.length ∧ done.getD index 0 = value ∧
          ∀ q < index, done.getD q 0 < value)) →
      done ++ rest ≠ [] →
      fhn_go rest done.length index value < (done ++ rest).length ∧
      (∀ q, (done ++ rest).getD q 0
        ≤ (done ++ rest).getD (fhn_go rest done.length index value) 0) ∧
      (∀ q < fhn_go rest done.length index value,
        (done ++ rest).getD q 0 < (done ++ rest).getD (fhn_go rest done.length index value) 0) := by
  intro rest
  induction rest with
  | nil =>
    intro done index value hval hinv hne
    rcases hinv with ⟨rfl, _, _⟩ | ⟨hlt, hidx, hfirst⟩
    · simp at hne
    · refine ⟨by simpa [fhn_go] using hlt, ?_, ?_⟩
      · intro q
        show (done ++ []).getD q 0 ≤ (done ++ []).getD index 0
        rw [List.append_nil, hidx, hval]
        exact getD_le_foldr_max done q
      · intro q hq
        show (done ++ []).getD q 0 < (done ++ []).getD index 0
        rw [List.append_nil, hidx]
        exact hfirst q hq
  | cons d rest' ih =>
    intro done index value hval hinv hne
    have hassoc : done ++ d :: rest' = (done ++ [d]) ++ rest' := by
      rw [List.append_assoc]; rfl
    have hlen1 : (done ++ [d]).length = done.length + 1 := by simp
    show fhn_go (d :: rest') done.length index value < _ ∧ _
    unfold fhn_go
    by_cases hcmp : value < d
    · rw [if_pos hcmp]
      have hval' : d = (done ++ [d]).foldr max 0 := by
        rw [foldr_max_append_singleton, ← hval]
        omega
      have hinv' : (done ++ [d] = [] ∧ done.length = 0 ∧ d = 0) ∨
          ((done.length < (done ++ [d]).length ∧ (done ++ [d]).getD done.length 0 = d ∧
            ∀ q < done.length, (done ++ [d]).getD q 0 < d)) := by
        right
        refine ⟨by simp, ?_, ?_⟩
        · rw [List.getD_append_right done [d] 0 done.length (Nat.le_refl _)]
          simp [List.getD]
        · intro q hq
          rw [List.getD_append done [d] _ _ hq]
          calc done.getD q 0 ≤ done.foldr max 0 := getD_le_foldr_max done q
            _ = value := hval.symm
            _ < d := hcmp
      have := ih (done ++ [d]) done.length d hval'
        (by simpa [hlen1] using hinv') (by simp)
      rw [hlen1, ← hassoc] at this
      exact this
    · rw [if_neg hcmp]
      have hval' : value = (done ++ [d]).foldr max 0 := by
        rw [foldr_max_append_singleton, ← hval]
        omega
      have hinv' : (done ++ [d] = [] ∧ index = 0 ∧ value = 0) ∨
          (index < (done ++ [d]).length ∧ (done ++ [d]).getD index 0 = value ∧
            ∀ q < index, (done ++ [d]).getD q 0 < value) := by
      -- in both invariant cases the extended list satisfies the located form
        right
        rcases hinv with ⟨rfl, rfl, rfl⟩ | ⟨hlt, hidx, hfirst⟩
        · refine ⟨by simp, ?_, by omega⟩
          have hd0 : d = 0 := by omega
          simp [hd0, List.getD]
        · refine ⟨by simp; omega, ?_, ?_⟩
          · rw [List.getD_append done [d] _ _ hlt]
            exact hidx
          · intro q hq
            rw [List.getD_append done [d] _ _ (by omega)]
            exact hfirst q hq
      have := ih (done ++ [d]) index value hval' (by simpa [hlen1] using hinv') (by simp)
      rw [hlen1, ← hassoc] at this
      exact this


/-- `find_highest_number` of a non-empty slice: in range, value is an upper
bound of all digits, and every earlier digit is strictly smaller (first
occurrence of the maximum). -/
theorem find_highest_number_spec (w : List Nat) (hw : w ≠ []) :
    find_highest_number w < w.length ∧
    (∀ q, w.getD q 0 ≤ w.getD (find_highest_number w) 0) ∧
    (∀ q < find_highest_number w, w.getD q 0 < w.getD (find_highest_number w) 0) := by
  have := fhn_go_spec w [] 0 0 rfl (Or.inl ⟨rfl, rfl, rfl⟩) (by simpa)
  simpa [find_highest_number] using this


/-! Properties of the uniform greedy selection. -/

theorem greedy_select_spec :
    ∀ (j : Nat) (s : List Nat), j ≤ s.length →
      (greedy_select j s).Sublist s ∧ (greedy_select j s).length = j := by
  intro j
  induction j with
  | zero => intro s _; exact ⟨List.nil_sublist s, rfl⟩
  | succ j ih =>
    intro s hj
    have hwlen : (s.take (s.length - j)).length = s.length - j := by
      rw [List.length_take]; omega
    have hwne : s.take (s.length - j) ≠ [] := by
      intro hnil
      have := congrArg List.length hnil
      rw [hwlen] at this
      simp at this
      omega
    have hm := (find_highest_number_spec _ hwne).1
    rw [hwlen] at hm
    have hjrest : j ≤ (s.drop (find_highest_number (s.take (s.length - j)) + 1)).length := by
      rw [List.length_drop]; omega
    obtain ⟨hsub, hlen⟩ := ih _ hjrest
    have hunfold : greedy_select (j + 1) s
        = (s.take (s.length - j)).getD (find_highest_number (s.take (s.length - j))) 0
          :: greedy_select j (s.drop (find_highest_number (s.take (s.length - j)) + 1)) := rfl
    constructor
    · rw [hunfold]
      have hdigit : (s.take (s.length - j)).getD (find_highest_number (s.take (s.length - j))) 0
          = s.getD (find_highest_number (s.take (s.length - j))) 0 := by
        rw [List.getD_eq_getElem _ 0 (by rw [hwlen]; exact hm),
          List.getD_eq_getElem _ 0 (by omega)]
        exact List.getElem_take s
      rw [hdigit]
      have hdecomp : s.getD (find_highest_number (s.take (s.length - j))) 0
            :: s.drop (find_highest_number (s.take (s.length - j)) + 1)
          = s.drop (find_highest_number (s.take (s.length - j))) := by
        rw [List.getD_eq_getElem _ 0 (by omega)]
        exact (List.drop_eq_getElem_cons (by omega)).symm
      have step1 : (s.getD (find_highest_number (s.take (s.length - j))) 0
            :: greedy_select j (s.drop (find_highest_number (s.take (s.length - j)) + 1))).Sublist
          (s.getD (find_highest_number (s.take (s.length - j))) 0
            :: s.drop (find_highest_number (s.take (s.length - j)) + 1)) := hsub.cons₂ _
      rw [hdecomp] at step1
      exact step1.trans (List.drop_sublist _ _)
    · rw [hunfold]
      simp [hlen]


/-! Decimal value lemmas. -/

theorem digitsToNat_foldl_acc (l : List Nat) :
    ∀ acc : Nat, l.foldl (fun a d => a * 10 + d) acc
      = acc * 10 ^ l.length + digitsToNat l := by
  induction l with
  | nil => intro acc; simp [digitsToNat]
  | cons d rest ih =>
    intro acc
    show rest.foldl (fun a d => a * 10 + d) (acc * 10 + d) = _
    rw [ih (acc * 10 + d)]
    have hd : digitsToNat (d :: rest) = (0 * 10 + d) * 10 ^ rest.length + digitsToNat rest := by
      show rest.foldl (fun a d => a * 10 + d) (0 * 10 + d) = _
      rw [ih (0 * 10 + d)]
    rw [hd]
    simp [List.length_cons]
    ring


theorem digitsToNat_cons (a : Nat) (t : List Nat) :
    digitsToNat (a :: t) = a * 10 ^ t.length + digitsToNat t := by
  show t.foldl (fun x d => x * 10 + d) (0 * 10 + a) = _
  rw [digitsToNat_foldl_acc t (0 * 10 + a)]
  ring_nf


theorem digitsToNat_lt (t : List Nat) (h : ∀ d ∈ t, d < 10) :
    digitsToNat t < 10 ^ t.length := by
  induction t with
  | nil => simp [digitsToNat]
  | cons d rest ih =>
    rw [digitsToNat_cons]
    have hd : d < 10 := h d (List.mem_cons_self d rest)
    have hrest : digitsToNat rest < 10 ^ rest.length :=
      ih fun x hx => h x (List.mem_cons_of_mem d hx)
    calc d * 10 ^ rest.length + digitsToNat rest
        < d * 10 ^ rest.length + 10 ^ rest.length := by omega
      _ = (d + 1) * 10 ^ rest.length := by ring
      _ ≤ 10 * 10 ^ rest.length := Nat.mul_le_mul_right _ (by omega)
      _ = 10 ^ (d :: rest).length := by rw [List.length_cons]; ring


/-- A non-empty sublist can be split at the position of its head. -/
theorem sublist_cons_decomp (a : Nat) :
    ∀ (s t : List Nat), (a :: t).Sublist s →
      ∃ p, p < s.length ∧ s.getD p 0 = a ∧ t.Sublist (s.drop (p + 1)) := by
  intro s
  induction s with
  | nil => intro t h; simp at h
  | cons b s' ih =>
    intro t h
    cases h with
    | cons _ h' =>
      obtain ⟨p, hp, hval, hsub⟩ := ih t h'
      exact ⟨p + 1, by simp; omega, by simpa [List.getD] using hval, by simpa using hsub⟩
    | cons₂ _ h' =>
      exact ⟨0, by simp, by simp [List.getD], by simpa using h'⟩


/-- The greedy selection dominates the decimal value of every length-`j`
subsequence. -/
theorem greedy_select_max :
    ∀ (j : Nat) (s t : List Nat), (∀ d ∈ s, d < 10) → j ≤ s.length →
      t.Sublist s → t.length = j → digitsToNat t ≤ digitsToNat (greedy_select j s) := by
  intro j
  induction j with
  | zero =>
    intro s t _ _ _ ht
    rw [List.length_eq_zero.mp ht]
    exact Nat.zero_le _
  | succ j ih =>
    intro s t hdig hj hsub ht
    cases t with
    | nil => simp at ht
    | cons a t' =>
      have ht' : t'.length = j := by simpa using ht
      obtain ⟨p, hp, hpa, hpsub⟩ := sublist_cons_decomp a s t' hsub
      have hwlen : (s.take (s.length - j)).length = s.length - j := by
        rw [List.length_take]; omega
      have hwne : s.take (s.length - j) ≠ [] := by
        intro hnil
        have := congrArg List.length hnil
        rw [hwlen] at this
        simp at this
        omega
      obtain ⟨hmlt, hub, hfirst⟩ := find_highest_number_spec _ hwne
      have hmlt' : find_highest_number (s.take (s.length - j)) < s.length - j := by
        have := hmlt
        rw [hwlen] at this
        exact this
      have hpwin : p < s.length - j := by
        have hlen1 := hpsub.length_le
        rw [List.length_drop] at hlen1
        omega
      have haw : (s.take (s.length - j)).getD p 0 = a := by
        rw [List.getD_eq_getElem _ 0 (by rw [hwlen]; omega),
          ← hpa, List.getD_eq_getElem _ 0 (by omega)]
        exact List.getElem_take s
      have hale : a ≤ (s.take (s.length - j)).getD
          (find_highest_number (s.take (s.length - j))) 0 := by
        rw [← haw]; exact hub p
      have hjrest : j ≤ (s.drop (find_highest_number (s.take (s.length - j)) + 1)).length := by
        rw [List.length_drop]; omega
      have hglen : (greedy_select j
          (s.drop (find_highest_number (s.take (s.length - j)) + 1))).length = j :=
        (greedy_select_spec j _ hjrest).2
      have hunfold : greedy_select (j + 1) s
          = (s.take (s.length - j)).getD (find_highest_number (s.take (s.length - j))) 0
            :: greedy_select j (s.drop (find_highest_number (s.take (s.length - j)) + 1)) := rfl
      rw [hunfold, digitsToNat_cons, digitsToNat_cons, ht', hglen]
      have ht'digits : ∀ d ∈ t', d < 10 := by
        intro d hd
        exact hdig d ((hpsub.trans (List.drop_sublist _ _)).subset hd)
      rcases lt_or_eq_of_le hale with hcase | hcase
      · have hlt : digitsToNat t' < 10 ^ j := by
          rw [← ht']
          exact digitsToNat_lt t' ht'digits
        refine le_of_lt ?_
        calc a * 10 ^ j + digitsToNat t'
            < (a + 1) * 10 ^ j := by ring_nf; omega
          _ ≤ (s.take (s.length - j)).getD
                (find_highest_number (s.take (s.length - j))) 0 * 10 ^ j :=
              Nat.mul_le_mul_right _ (by omega)
          _ ≤ (s.take (s.length - j)).getD
                (find_highest_number (s.take (s.length - j))) 0 * 10 ^ j
              + digitsToNat (greedy_select j
                  (s.drop (find_highest_number (s.take (s.length - j)) + 1))) :=
              Nat.le_add_right _ _
      · have hmp : find_highest_number (s.take (s.length - j)) ≤ p := by
          by_contra hcon
          push_neg at hcon
          have := hfirst p hcon
          rw [haw] at this
          omega
        have ht'sub : t'.Sublist
            (s.drop (find_highest_number (s.take (s.length - j)) + 1)) := by
          have h1 : (s.drop (find_highest_number (s.take (s.length - j)) + 1)).drop
                (p - find_highest_number (s.take (s.length - j)))
              = s.drop (p + 1) := by
            rw [List.drop_drop]
            congr 1
            omega
          rw [← h1] at hpsub
          exact hpsub.trans (List.drop_sublist _ _)
        have hdigdrop : ∀ d ∈ s.drop (find_highest_number (s.take (s.length - j)) + 1),
            d < 10 := by
          intro d hd
          exact hdig d ((List.drop_sublist _ _).subset hd)
        have hrec := ih (s.drop (find_highest_number (s.take (s.length - j)) + 1)) t'
          hdigdrop hjrest ht'sub ht'
        rw [hcase]
        exact Nat.add_le_add_left hrec _


/-- Part 1's `find_best_joltage` is the greedy selection with `k = 2`. -/
theorem greedy_select_one (s : List Nat) :
    greedy_select 1 s = [s.getD (find_highest_number s) 0] := by
  show (s.take (s.length - 0)).getD (find_highest_number (s.take (s.length - 0))) 0
      :: greedy_select 0 (s.drop (find_highest_number (s.take (s.length - 0)) + 1)) = _
  rw [Nat.sub_zero, List.take_length]
  rfl


theorem Part1.part1_find_best_joltage_eq (bank : List Nat) :
    find_best_joltage bank = digitsToNat (greedy_select 2 bank) := by
  have h2 : greedy_select 2 bank
      = (bank.take (bank.length - 1)).getD
          (find_highest_number (bank.take (bank.length - 1))) 0
        :: greedy_select 1
            (bank.drop (find_highest_number (bank.take (bank.length - 1)) + 1)) := rfl
  rw [h2, greedy_select_one]
  show (bank.take (bank.length - 1)).getD
        (find_highest_number (bank.take (bank.length - 1))) 0 * 10
      + (bank.drop (find_highest_number (bank.take (bank.length - 1)) + 1)).getD
          (find_highest_number
            (bank.drop (find_highest_number (bank.take (bank.length - 1)) + 1))) 0
      = _
  simp [digitsToNat]


/-- Part 2's selection loop is the greedy selection on the remaining bank. -/
theorem Part2.fbj_go_eq (bank : List Nat) (h12 : 12 ≤ bank.length) :
    ∀ (rem start : Nat), rem ≤ 12 → start + rem ≤ bank.length →
      fbj_go bank start rem = greedy_select rem (bank.drop start) := by
  intro rem
  induction rem with
  | zero => intro start _ _; rfl
  | succ r ih =>
    intro start hr hs
    have hf : fbj_go bank start (r + 1)
        = ((bank.drop start).take (bank.length - 12 + (12 - r) - start)).getD
            (find_highest_number
              ((bank.drop start).take (bank.length - 12 + (12 - r) - start))) 0
          :: fbj_go bank
              (start + find_highest_number
                ((bank.drop start).take (bank.length - 12 + (12 - r) - start)) + 1) r := rfl
    have hg : greedy_select (r + 1) (bank.drop start)
        = ((bank.drop start).take ((bank.drop start).length - r)).getD
            (find_highest_number ((bank.drop start).take ((bank.drop start).length - r))) 0
          :: greedy_select r ((bank.drop start).drop
              (find_highest_number
                ((bank.drop start).take ((bank.drop start).length - r)) + 1)) := rfl
    have hweq : (bank.drop start).take (bank.length - 12 + (12 - r) - start)
        = (bank.drop start).take ((bank.drop start).length - r) := by
      rw [List.length_drop]
      congr 1
      omega
    rw [hf, hg, hweq]
    have hwlen : ((bank.drop start).take ((bank.drop start).length - r)).length
        = bank.length - start - r := by
      rw [List.length_take, List.length_drop]
      omega
    have hwne : (bank.drop start).take ((bank.drop start).length - r) ≠ [] := by
      intro hnil
      have := congrArg List.length hnil
      rw [hwlen] at this
      simp at this
      omega
    have hm := (find_highest_number_spec _ hwne).1
    rw [hwlen] at hm
    congr 1
    have hdrop : (bank.drop start).drop
          (find_highest_number ((bank.drop start).take ((bank.drop start).length - r)) + 1)
        = bank.drop (start
            + find_highest_number ((bank.drop start).take ((bank.drop start).length - r))
            + 1) := by
      rw [Nat.add_assoc]
      exact List.drop_drop _ _ _
    rw [hdrop]
    exact ih _ (by omega) (by omega)


theorem Part2.part2_find_best_joltage_eq (bank : List Nat) (h12 : 12 ≤ bank.length) :
    find_best_joltage bank = digitsToNat (greedy_select 12 bank) := by
  unfold find_best_joltage
  rw [Part2.fbj_go_eq bank h12 12 0 (by omega) (by omega), List.drop_zero]

end Day03

/-! ### Claim C1: greedy digit selection is maximal -/

/-- C1: on a bank of decimal digits, part 1's `find_best_joltage` (when the
bank has length at least 2) and part 2's `find_best_joltage` (length at
least 12) return the maximum decimal value over all order-preserving
subsequences of 2 respectively 12 digits. -/
theorem day03_greedy_selection_maximal (bank : List Nat) (hd : ∀ d ∈ bank, d < 10) :
    (2 ≤ bank.length →
      (∀ t : List Nat, t.Sublist bank → t.length = 2 →
        digitsToNat t ≤ Day03.Part1.find_best_joltage bank) ∧
      (∃ t : List Nat, t.Sublist bank ∧ t.length = 2 ∧
        digitsToNat t = Day03.Part1.find_best_joltage bank)) ∧
    (12 ≤ bank.length →
      (∀ t : List Nat, t.Sublist bank → t.length = 12 →
        digitsToNat t ≤ Day03.Part2.find_best_joltage bank) ∧
      (∃ t : List Nat, t.Sublist bank ∧ t.length = 12 ∧
        digitsToNat t = Day03.Part2.find_best_joltage bank)) := by
  constructor
  · intro h2
    rw [Day03.Part1.part1_find_best_joltage_eq]
    constructor
    · intro t hsub ht
      exact Day03.greedy_select_max 2 bank t hd h2 hsub ht
    · obtain ⟨hsub, hlen⟩ := Day03.greedy_select_spec 2 bank h2
      exact ⟨Day03.greedy_select 2 bank, hsub, hlen, rfl⟩
  · intro h12
    rw [Day03.Part2.part2_find_best_joltage_eq bank h12]
    constructor
    · intro t hsub ht
      exact Day03.greedy_select_max 12 bank t hd h12 hsub ht
    · obtain ⟨hsub, hlen⟩ := Day03.greedy_select_spec 12 bank h12
      exact ⟨Day03.greedy_select 12 bank, hsub, hlen, rfl⟩


/-- Witness for C1 at the bank `987654321111111` of the repository's tests. -/
theorem day03_greedy_selection_maximal_witness :
    (∀ d ∈ [9, 8, 7, 6, 5, 4, 3, 2, 1, 1, 1, 1, 1, 1, 1], d < 10) ∧
    ((2 ≤ ([9, 8, 7, 6, 5, 4, 3, 2, 1, 1, 1, 1, 1, 1, 1] : List Nat).length →
      (∀ t : List Nat, t.Sublist [9, 8, 7, 6, 5, 4, 3, 2, 1, 1, 1, 1, 1, 1, 1] →
        t.length = 2 →
        digitsToNat t ≤ Day03.Part1.find_best_joltage [9, 8, 7, 6, 5, 4, 3, 2, 1, 1, 1, 1, 1, 1, 1]) ∧
      (∃ t : List Nat, t.Sublist [9, 8, 7, 6, 5, 4, 3, 2, 1, 1, 1, 1, 1, 1, 1] ∧
        t.length = 2 ∧
        digitsToNat t = Day03.Part1.find_best_joltage [9, 8, 7, 6, 5, 4, 3, 2, 1, 1, 1, 1, 1, 1, 1])) ∧
    (12 ≤ ([9, 8, 7, 6, 5, 4, 3, 2, 1, 1, 1, 1, 1, 1, 1] : List Nat).length →
      (∀ t : List Nat, t.Sublist [9, 8, 7, 6, 5, 4, 3, 2, 1, 1, 1, 1, 1, 1, 1] →
        t.length = 12 →
        digitsToNat t ≤ Day03.Part2.find_best_joltage [9, 8, 7, 6, 5, 4, 3, 2, 1, 1, 1, 1, 1, 1, 1]) ∧
      (∃ t : List Nat, t.Sublist [9, 8, 7, 6, 5, 4, 3, 2, 1, 1, 1, 1, 1, 1, 1] ∧
        t.length = 12 ∧
        digitsToNat t = Day03.Part2.find_best_joltage [9, 8, 7, 6, 5, 4, 3, 2, 1, 1, 1, 1, 1, 1, 1]))) :=
  ⟨by decide, day03_greedy_selection_maximal [9, 8, 7, 6, 5, 4, 3, 2, 1, 1, 1, 1, 1, 1, 1]
    (by decide)⟩

namespace Day04

/-! Cell accessor lemmas. -/

theorem getD_rows_eq (g : Grid) (a : Nat) (ha : a < g.length) : g.getD a [] = g[a] := by
  rw [List.getD_eq_getElem?_getD, List.getElem?_eq_getElem ha]
  rfl


theorem getCell_oob (g : Grid) (a b : Nat)
    (hoob : ¬(a < g.length ∧ b < (g.getD a []).length)) : getCell g a b = false := by
  unfold getCell
  by_cases ha : a < g.length
  · have hb : ¬b < (g.getD a []).length := fun hb => hoob ⟨ha, hb⟩
    rw [List.getD_eq_getElem?_getD (g.getD a []) b, List.getElem?_eq_none (by omega)]
    rfl
  · rw [List.getD_eq_getElem?_getD g a, List.getElem?_eq_none (by omega)]
    simp [List.getD]


theorem getCell_setCell (g : Grid) (h w a b : Nat) (v : Bool) :
    getCell (setCell g h w v) a b
      = if h = a ∧ w = b ∧ h < g.length ∧ w < (g.getD h []).length then v
        else getCell g a b := by
  show ((g.set h ((g.getD h []).set w v)).getD a []).getD b false = _
  by_cases hha : h = a
  · subst hha
    by_cases hh : h < g.length
    · have hrow : (g.set h ((g.getD h []).set w v)).getD h [] = (g.getD h []).set w v := by
        rw [List.getD_eq_getElem?_getD, List.getElem?_set_self', List.getElem?_eq_getElem hh]
        rfl
      rw [hrow]
      by_cases hwb : w = b
      · subst hwb
        by_cases hw : w < (g.getD h []).length
        · rw [if_pos ⟨rfl, rfl, hh, hw⟩]
          rw [List.getD_eq_getElem?_getD, List.getElem?_set_self',
            List.getElem?_eq_getElem hw]
          rfl
        · rw [if_neg fun hc => hw hc.2.2.2]
          rw [List.getD_eq_getElem?_getD,
            List.getElem?_eq_none (by rw [List.length_set]; omega)]
          rw [getCell_oob g h w fun hc => hw hc.2]
          rfl
      · rw [if_neg fun hc => hwb hc.2.1]
        rw [List.getD_eq_getElem?_getD ((g.getD h []).set w v) b, List.getElem?_set_ne hwb,
          ← List.getD_eq_getElem?_getD]
        rfl
    · rw [if_neg fun hc => hh hc.2.2.1]
      have hrow : (g.set h ((g.getD h []).set w v)).getD h [] = [] := by
        rw [List.getD_eq_getElem?_getD, List.getElem?_set_self',
          (List.getElem?_eq_none (by omega : g.length ≤ h))]
        rfl
      rw [hrow, getCell_oob g h b fun hc => hh hc.1]
      simp [List.getD]
  · rw [if_neg fun hc => hha hc.1]
    rw [List.getD_eq_getElem?_getD (g.set h _) a, List.getElem?_set_ne hha,
      ← List.getD_eq_getElem?_getD]
    rfl


theorem getCell_setCell_ne (g : Grid) (h w a b : Nat) (v : Bool)
    (hne : (h, w) ≠ (a, b)) : getCell (setCell g h w v) a b = getCell g a b := by
  rw [getCell_setCell]
  rw [if_neg (by intro hc; exact hne (by rw [hc.1, hc.2.1]))]


theorem getCell_setCell_false_imp (g : Grid) (h w a b : Nat)
    (hget : getCell (setCell g h w false) a b = true) : getCell g a b = true := by
  rw [getCell_setCell] at hget
  by_cases hc : h = a ∧ w = b ∧ h < g.length ∧ w < (g.getD h []).length
  · rw [if_pos hc] at hget
    exact absurd hget (by simp)
  · rwa [if_neg hc] at hget


/-! Occupied-cell counting. -/

theorem count_set_false (row : List Bool) (w : Nat) (hw : w < row.length)
    (ht : row.getD w false = true) :
    (row.set w false).count true + 1 = row.count true := by
  rw [List.set_eq_take_append_cons_drop, if_pos hw]
  conv_rhs => rw [← List.take_append_drop w row, List.drop_eq_getElem_cons hw]
  have hwt : row[w] = true := by
    rw [List.getD_eq_getElem?_getD, List.getElem?_eq_getElem hw] at ht
    simpa using ht
  rw [hwt]
  simp [List.count_append, List.count_cons]
  omega


theorem occCount_setCell_false (g : Grid) (h w : Nat) (ht : getCell g h w = true) :
    occCount (setCell g h w false) + 1 = occCount g := by
  have hin : h < g.length ∧ w < (g.getD h []).length := by
    by_contra hoob
    rw [getCell_oob g h w hoob] at ht
    exact absurd ht (by simp)
  unfold occCount setCell
  rw [List.map_set, List.sum_set, if_pos (by simpa using hin.1)]
  conv_rhs => rw [← List.take_append_drop h (g.map fun row => row.count true),
    List.drop_eq_getElem_cons (by simpa using hin.1)]
  rw [List.sum_append, List.sum_cons]
  rw [List.getElem_map]
  rw [← getD_rows_eq g h hin.1]
  have hcnt := count_set_false (g.getD h []) w hin.2 ht
  omega


/-! Monotonicity of the neighbour count. -/

theorem count_rolls_mono (g g0 : Grid)
    (hle : ∀ a b, getCell g a b = true → getCell g0 a b = true) (h w : Nat) :
    count_rolls_around_position g h w ≤ count_rolls_around_position g0 h w := by
  have key : ∀ a b, (if getCell g a b then 1 else 0)
      ≤ (if getCell g0 a b then (1 : Nat) else 0) := by
    intro a b
    by_cases hc : getCell g a b
    · rw [if_pos hc, if_pos (hle a b hc)]
    · rw [if_neg hc]
      split <;> omega
  unfold count_rolls_around_position
  have k1 := key (h - 1) (w - 1)
  have k2 := key (h - 1) w
  have k3 := key (h - 1) (w + 1)
  have k4 := key h (w - 1)
  have k5 := key h (w + 1)
  have k6 := key (h + 1) (w - 1)
  have k7 := key (h + 1) w
  have k8 := key (h + 1) (w + 1)
  omega


/-! Sweep accounting and termination. -/

theorem sweepCells_occ :
    ∀ (ps : List (Nat × Nat)) (g : Grid) (cnt : Nat),
      occCount (sweepCells ps g cnt).1 + (sweepCells ps g cnt).2 = occCount g + cnt := by
  intro ps
  induction ps with
  | nil => intro g cnt; rfl
  | cons p rest ih =>
    intro g cnt
    unfold sweepCells
    split
    · rename_i hcond
      rw [ih (setCell g p.1 p.2 false) (cnt + 1)]
      have := occCount_setCell_false g p.1 p.2 hcond.1
      omega
    · exact ih g cnt


theorem erodeFuel_isSome (ps : List (Nat × Nat)) :
    ∀ (n : Nat) (g : Grid), occCount g < n → (erodeFuel ps n g).isSome = true := by
  intro n
  induction n with
  | zero => intro g hg; omega
  | succ f ih =>
    intro g hg
    simp only [erodeFuel]
    by_cases hz : (sweepCells ps g 0).2 = 0
    · rw [if_pos hz]
      rfl
    · rw [if_neg hz]
      have hocc := sweepCells_occ ps g 0
      have hlt : occCount (sweepCells ps g 0).1 < f := by omega
      have hsome := ih (sweepCells ps g 0).1 hlt
      cases hr : erodeFuel ps f (sweepCells ps g 0).1 with
      | none => rw [hr] at hsome; simp at hsome
      | some v => cases v; rfl


theorem erodeFuel_count_ge (ps : List (Nat × Nat)) (n : Nat) (g gf : Grid) (nf : Nat)
    (h : erodeFuel ps n g = some (gf, nf)) : (sweepCells ps g 0).2 ≤ nf := by
  cases n with
  | zero => simp [erodeFuel] at h
  | succ f =>
    simp only [erodeFuel] at h
    by_cases hz : (sweepCells ps g 0).2 = 0
    · omega
    · rw [if_neg hz] at h
      cases hr : erodeFuel ps f (sweepCells ps g 0).1 with
      | none => rw [hr] at h; simp at h
      | some v =>
        rw [hr] at h
        cases v with
        | mk a m =>
          have : nf = (sweepCells ps g 0).2 + m := by
            have := (Option.some_inj.mp h)
            exact (congrArg Prod.snd this).symm
          omega


/-! The first sweep removes at least every cell part 1 marks removable. -/

theorem sweepCells_count_ge (g0 : Grid) :
    ∀ (ps : List (Nat × Nat)) (g : Grid) (cnt : Nat), ps.Nodup →
      (∀ a b, getCell g a b = true → getCell g0 a b = true) →
      (∀ p ∈ ps, getCell g p.1 p.2 = getCell g0 p.1 p.2) →
      cnt + ps.countP (fun p => getCell g0 p.1 p.2
          && decide (count_rolls_around_position g0 p.1 p.2 < 4))
        ≤ (sweepCells ps g cnt).2 := by
  intro ps
  induction ps with
  | nil => intro g cnt _ _ _; simp [sweepCells]
  | cons p rest ih =>
    intro g cnt hnd hmono hfresh
    have hndrest : rest.Nodup := (List.nodup_cons.mp hnd).2
    have hpnotin : p ∉ rest := (List.nodup_cons.mp hnd).1
    rw [List.countP_cons]
    unfold sweepCells
    by_cases hcond : getCell g p.1 p.2 = true ∧ count_rolls_around_position g p.1 p.2 < 4
    · rw [if_pos hcond]
      have hmono' : ∀ a b, getCell (setCell g p.1 p.2 false) a b = true →
          getCell g0 a b = true :=
        fun a b hab => hmono a b (getCell_setCell_false_imp g p.1 p.2 a b hab)
      have hfresh' : ∀ q ∈ rest,
          getCell (setCell g p.1 p.2 false) q.1 q.2 = getCell g0 q.1 q.2 := by
        intro q hq
        rw [getCell_setCell_ne g p.1 p.2 q.1 q.2 false (by
          intro he
          apply hpnotin
          have hpq : p = q := by
            have h1 : p = (p.1, p.2) := rfl
            have h2 : q = (q.1, q.2) := rfl
            rw [h1, h2, he]
          rw [hpq]
          exact hq)]
        exact hfresh q (List.mem_cons_of_mem p hq)
      have hrec := ih (setCell g p.1 p.2 false) (cnt + 1) hndrest hmono' hfresh'
      have hterm : (if (getCell g0 p.1 p.2
          && decide (count_rolls_around_position g0 p.1 p.2 < 4)) = true
          then 1 else 0) ≤ 1 := by
        split <;> omega
      omega
    · rw [if_neg hcond]
      have hfalse : (getCell g0 p.1 p.2
          && decide (count_rolls_around_position g0 p.1 p.2 < 4)) = false := by
        by_contra hbc
        rw [Bool.not_eq_false, Bool.and_eq_true, decide_eq_true_iff] at hbc
        apply hcond
        refine ⟨?_, ?_⟩
        · rw [hfresh p (List.mem_cons_self p rest)]
          exact hbc.1
        · calc count_rolls_around_position g p.1 p.2
              ≤ count_rolls_around_position g0 p.1 p.2 := count_rolls_mono g g0 hmono p.1 p.2
            _ < 4 := hbc.2
      rw [hfalse]
      have hrec := ih g cnt hndrest hmono fun q hq => hfresh q (List.mem_cons_of_mem p hq)
      simp only [Bool.false_eq_true, if_false]
      omega


theorem sweepPositions_nodup (height width : Nat) : (sweepPositions height width).Nodup := by
  unfold sweepPositions
  rw [List.nodup_flatMap]
  constructor
  · intro h _
    exact (List.nodup_range' 1 (width - 2) 1 (by omega)).map fun w1 w2 he => by
      simpa using congrArg Prod.snd he
  · have hpw : (List.range' 1 (height - 2)).Pairwise (· ≠ ·) :=
      List.nodup_range' 1 (height - 2) 1 (by omega)
    refine hpw.imp ?_
    intro h1 h2 hne
    intro x hx1 hx2
    rw [List.mem_map] at hx1 hx2
    obtain ⟨w1, _, rfl⟩ := hx1
    obtain ⟨w2, _, he⟩ := hx2
    exact hne (by simpa using (congrArg Prod.fst he).symm)

end Day04

theorem isSome_map (f : α → β) (o : Option α) : (o.map f).isSome = o.isSome := by
  cases o <;> rfl


/-! ### Claim C2: the fixed-point erosion terminates -/

/-- C2: for every input, the part 2 erosion loop (modelled with fuel
`occCount g + 1`) reaches a sweep that removes nothing before the fuel runs
out, i.e. `solve` is defined; and every sweep that removes at least one
cell strictly decreases the number of occupied cells. -/
theorem day04_part2_erosion_terminates :
    (∀ input : List Char, (Day04.Part2.solve input).isSome = true)
    ∧ (∀ (ps : List (Nat × Nat)) (g g1 : Day04.Grid) (n1 : Nat),
        Day04.sweepCells ps g 0 = (g1, n1) → n1 ≠ 0 →
          Day04.occCount g1 < Day04.occCount g) := by
  constructor
  · intro input
    unfold Day04.Part2.solve
    rw [isSome_map]
    exact Day04.erodeFuel_isSome _ _ _ (by omega)
  · intro ps g g1 n1 hsweep hne
    have hocc := Day04.sweepCells_occ ps g 0
    rw [hsweep] at hocc
    simp only at hocc
    omega


/-- Witness for C2's strict-decrease part on the single-cell grid. -/
theorem day04_part2_erosion_terminates_witness :
    Day04.sweepCells [(1, 1)]
        [[false, false, false], [false, true, false], [false, false, false]] 0
      = ([[false, false, false], [false, false, false], [false, false, false]], 1)
    ∧ Day04.occCount [[false, false, false], [false, false, false], [false, false, false]]
      < Day04.occCount [[false, false, false], [false, true, false], [false, false, false]] :=
  ⟨by decide, day04_part2_erosion_terminates.2 [(1, 1)]
    [[false, false, false], [false, true, false], [false, false, false]]
    [[false, false, false], [false, false, false], [false, false, false]] 1
    (by decide) (by decide)⟩


/-! ### Claim C9: part 2 removes at least as many cells as part 1 counts -/

/-- C9: on every input, part 2's total removed count is defined and at
least part 1's removable count: every cell with fewer than four occupied
neighbours in the initial grid still has fewer than four when the first
in-place sweep reaches it, hence is removed in the first sweep already. -/
theorem day04_part2_ge_part1 (input : List Char) :
    ∃ n, Day04.Part2.solve input = some n ∧ Day04.Part1.solve input ≤ n := by
  have hsome := (day04_part2_erosion_terminates.1 input)
  unfold Day04.Part2.solve at hsome ⊢
  rw [isSome_map] at hsome
  cases hr : Day04.erodeFuel
      (Day04.sweepPositions (Day04.pad_grid (Day04.parse_input_to_bool_grid input)).length
        ((Day04.pad_grid (Day04.parse_input_to_bool_grid input)).getD 0 []).length)
      (Day04.occCount (Day04.pad_grid (Day04.parse_input_to_bool_grid input)) + 1)
      (Day04.pad_grid (Day04.parse_input_to_bool_grid input)) with
  | none => rw [hr] at hsome; simp at hsome
  | some v =>
    cases v with
    | mk gf nf =>
      refine ⟨nf, rfl, ?_⟩
      have h1 := Day04.erodeFuel_count_ge _ _ _ _ _ hr
      have h2 := Day04.sweepCells_count_ge
        (Day04.pad_grid (Day04.parse_input_to_bool_grid input))
        (Day04.sweepPositions (Day04.pad_grid (Day04.parse_input_to_bool_grid input)).length
          ((Day04.pad_grid (Day04.parse_input_to_bool_grid input)).getD 0 []).length)
        (Day04.pad_grid (Day04.parse_input_to_bool_grid input)) 0
        (Day04.sweepPositions_nodup _ _)
        (fun _ _ hab => hab)
        (fun _ _ => rfl)
      unfold Day04.Part1.solve
      omega

namespace Day05

theorem mapOption_cons_inv (f : α → Option β) (a : α) (l : List α) (res : List β)
    (h : mapOption f (a :: l) = some res) :
    ∃ b t, f a = some b ∧ mapOption f l = some t ∧ res = b :: t := by
  unfold mapOption at h
  cases hfa : f a with
  | none => rw [hfa] at h; simp at h
  | some b =>
    cases hml : mapOption f l with
    | none => rw [hfa, hml] at h; simp at h
    | some t =>
      rw [hfa, hml] at h
      exact ⟨b, t, rfl, rfl, (Option.some_inj.mp h).symm⟩


theorem anyRange_spec (v : Int) :
    ∀ (rs : List (List Char)) (prs : List (Int × Int)),
      mapOption parseRange rs = some prs →
      anyRange v rs = some (prs.any fun se => decide (se.1 ≤ v ∧ v ≤ se.2)) := by
  intro rs
  induction rs with
  | nil =>
    intro prs h
    obtain rfl : ([] : List (Int × Int)) = prs := Option.some_inj.mp h
    rfl
  | cons r rest ih =>
    intro prs h
    obtain ⟨se, prs', hr, hrest, rfl⟩ := mapOption_cons_inv parseRange r rest prs h
    show (match is_id_in_range v r with
      | none => none
      | some true => some true
      | some false => anyRange v rest) = _
    rw [show is_id_in_range v r = some (decide (v ≥ se.1 ∧ v ≤ se.2)) from by
      unfold is_id_in_range; rw [hr]; rfl]
    have hdec : decide (v ≥ se.1 ∧ v ≤ se.2) = decide (se.1 ≤ v ∧ v ≤ se.2) := by
      simp [ge_iff_le]
    by_cases hb : (se.1 ≤ v ∧ v ≤ se.2)
    · rw [hdec, decide_eq_true hb]
      show some true = _
      rw [List.any_cons]
      rw [decide_eq_true hb]
      rfl
    · rw [hdec, decide_eq_false hb]
      show anyRange v rest = _
      rw [ih prs' hrest, List.any_cons, decide_eq_false hb]
      rfl


theorem solve_go_spec (rs : List (List Char)) (prs : List (Int × Int))
    (hrs : mapOption parseRange rs = some prs) :
    ∀ (idls : List (List Char)) (ids : List Int),
      mapOption parse_i64 idls = some ids →
      solve_go rs idls
        = some (ids.countP fun v => prs.any fun se => decide (se.1 ≤ v ∧ v ≤ se.2)) := by
  intro idls
  induction idls with
  | nil =>
    intro ids h
    obtain rfl : ([] : List Int) = ids := Option.some_inj.mp h
    rfl
  | cons idl rest ih =>
    intro ids h
    obtain ⟨v, ids', hv, hrest, rfl⟩ := mapOption_cons_inv parse_i64 idl rest ids h
    show (match parse_i64 idl with
      | none => none
      | some v =>
        match anyRange v rs with
        | none => none
        | some b =>
          match solve_go rs rest with
          | none => none
          | some c => some (if b then c + 1 else c)) = _
    rw [hv]
    show (match anyRange v rs with
      | none => none
      | some b =>
        match solve_go rs rest with
        | none => none
        | some c => some (if b = true then c + 1 else c)) = _
    rw [anyRange_spec v rs prs hrs]
    show (match solve_go rs rest with
      | none => none
      | some c => some (if (prs.any fun se => decide (se.1 ≤ v ∧ v ≤ se.2)) = true
          then c + 1 else c)) = _
    rw [ih ids' hrest]
    show some (if (prs.any fun se => decide (se.1 ≤ v ∧ v ≤ se.2)) = true
        then (ids'.countP fun x => prs.any fun se => decide (se.1 ≤ x ∧ x ≤ se.2)) + 1
        else ids'.countP fun x => prs.any fun se => decide (se.1 ≤ x ∧ x ≤ se.2)) = _
    rw [List.countP_cons]
    congr 1
    split_ifs <;> omega

end Day05

/-! ### Claim C7: day 5 counts IDs inside at least one inclusive range -/

/-- C7: whenever the input parses (a divider exists, every range line and
every ID line parse), `solve` returns the number of IDs lying in at least
one range, endpoints inclusive, each qualifying ID counted exactly once no
matter how many ranges contain it. -/
theorem day05_count_ids_in_ranges (input : List Char) (di : Nat)
    (rngs : List (Int × Int)) (ids : List Int)
    (hdi : (rustLines input).findIdx? (fun l => l == ([] : List Char)) = some di)
    (hrngs : mapOption Day05.parseRange ((rustLines input).take di) = some rngs)
    (hids : mapOption parse_i64 ((rustLines input).drop (di + 1)) = some ids) :
    Day05.solve input
      = some (ids.countP fun v => rngs.any fun se => decide (se.1 ≤ v ∧ v ≤ se.2)) := by
  unfold Day05.solve
  rw [hdi]
  exact Day05.solve_go_spec _ rngs hrngs _ ids hids


/-- Witness for C7 on the sample input of the repository's tests (three of
the six IDs are inside some range). -/
theorem day05_count_ids_in_ranges_witness :
    Day05.solve ("3-5\n10-14\n16-20\n12-18\n\n1\n5\n8\n11\n17\n32".toList)
      = some (([1, 5, 8, 11, 17, 32] : List Int).countP fun v =>
          ([((3 : Int), (5 : Int)), (10, 14), (16, 20), (12, 18)]).any fun se =>
            decide (se.1 ≤ v ∧ v ≤ se.2)) :=
  day05_count_ids_in_ranges ("3-5\n10-14\n16-20\n12-18\n\n1\n5\n8\n11\n17\n32".toList)
    4 [(3, 5), (10, 14), (16, 20), (12, 18)] [1, 5, 8, 11, 17, 32]
    (by decide) (by decide) (by decide)

namespace Day06

theorem mapOption_eq_some_of (f : α → Option β) (g : α → β) :
    ∀ l : List α, (∀ a ∈ l, f a = some (g a)) → mapOption f l = some (l.map g) := by
  intro l
  induction l with
  | nil => intro _; rfl
  | cons a rest ih =>
    intro h
    show (match f a, mapOption f rest with
      | some b, some bs => some (b :: bs)
      | _, _ => none) = _
    rw [h a (List.mem_cons_self a rest), ih fun x hx => h x (List.mem_cons_of_mem a hx)]
    rfl


theorem csi_lt (lastLine : List Char) (k : Nat)
    (hk : k < (Part2.collum_start_indicies lastLine).length) :
    (Part2.collum_start_indicies lastLine).getD k 0 < lastLine.length := by
  have hmem : (Part2.collum_start_indicies lastLine).getD k 0
      ∈ Part2.collum_start_indicies lastLine := by
    rw [List.getD_eq_getElem _ _ hk]
    exact List.getElem_mem hk
  unfold Part2.collum_start_indicies at hmem
  have := List.mem_of_mem_filter hmem
  rwa [List.mem_range] at this


theorem csi_sorted (lastLine : List Char) (k : Nat)
    (hk : k + 1 < (Part2.collum_start_indicies lastLine).length) :
    (Part2.collum_start_indicies lastLine).getD k 0
      < (Part2.collum_start_indicies lastLine).getD (k + 1) 0 := by
  have hpw : (Part2.collum_start_indicies lastLine).Pairwise (· < ·) := by
    unfold Part2.collum_start_indicies
    exact (List.pairwise_lt_range lastLine.length).filter _
  rw [List.pairwise_iff_getElem] at hpw
  rw [List.getD_eq_getElem _ _ (by omega), List.getD_eq_getElem _ _ hk]
  exact hpw k (k + 1) (by omega) hk (by omega)

end Day06

/-! ### Claim C5: day 6 part 2 column extraction -/

/-- C5: when the last line exists and the grid is rectangular (no line
shorter than the last), `extract_columns` yields exactly one column per
non-space character of the last line, and column `i` of line `j` is the
slice of that line from boundary `i` to just before boundary `i + 1`
(to the end of the last line for the final column); on the section 8
sample grid `solve` totals `3263827`. -/
theorem day06_extract_columns_spec :
    (∀ (input lastLine : List Char),
      (rustLines input).getLast? = some lastLine →
      (∃ i, i < lastLine.length ∧ lastLine.getD i ' ' ≠ ' ') →
      (∀ l ∈ rustLines input, lastLine.length ≤ l.length) →
      ∃ cols, Day06.Part2.extract_columns input = some cols ∧
        cols.length = (List.range lastLine.length).countP
          (fun i => lastLine.getD i ' ' != ' ') ∧
        ∀ i, i < cols.length →
          (cols.getD i []).length = (rustLines input).length ∧
          ∀ j, j < (rustLines input).length →
            (cols.getD i []).getD j []
              = (((rustLines input).getD j []).drop
                  ((Day06.Part2.collum_start_indicies lastLine).getD i 0)).take
                  ((if i = (Day06.Part2.collum_start_indicies lastLine).length - 1
                    then lastLine.length
                    else (Day06.Part2.collum_start_indicies lastLine).getD (i + 1) 0 - 1)
                    - (Day06.Part2.collum_start_indicies lastLine).getD i 0))
    ∧ Day06.Part2.solve
        ("123 328  51 64 \n 45 64  387 23 \n  6 98  215 314\n*   +   *   +  ".toList)
      = some 3263827 := by
  constructor
  · intro input lastLine hlast hnonsp hlen
    unfold Day06.Part2.extract_columns
    rw [hlast]
    have hbounds : ∀ i, i < (Day06.Part2.collum_start_indicies lastLine).length →
        (Day06.Part2.collum_start_indicies lastLine).getD i 0
          ≤ (if i = (Day06.Part2.collum_start_indicies lastLine).length - 1
              then lastLine.length
              else (Day06.Part2.collum_start_indicies lastLine).getD (i + 1) 0 - 1)
        ∧ (if i = (Day06.Part2.collum_start_indicies lastLine).length - 1
            then lastLine.length
            else (Day06.Part2.collum_start_indicies lastLine).getD (i + 1) 0 - 1)
          ≤ lastLine.length := by
      intro i hi
      by_cases hil : i = (Day06.Part2.collum_start_indicies lastLine).length - 1
      · rw [if_pos hil]
        have := Day06.csi_lt lastLine i hi
        omega
      · rw [if_neg hil]
        have hi1 : i + 1 < (Day06.Part2.collum_start_indicies lastLine).length := by omega
        have h1 := Day06.csi_sorted lastLine i hi1
        have h2 := Day06.csi_lt lastLine (i + 1) hi1
        omega
    have hinner : ∀ i ∈ List.range (Day06.Part2.collum_start_indicies lastLine).length,
        mapOption
          (fun line => Day06.Part2.sliceTo line
            ((Day06.Part2.collum_start_indicies lastLine).getD i 0)
            (if i = (Day06.Part2.collum_start_indicies lastLine).length - 1
              then lastLine.length
              else (Day06.Part2.collum_start_indicies lastLine).getD (i + 1) 0 - 1))
          (rustLines input)
        = some ((rustLines input).map fun line =>
            (line.drop ((Day06.Part2.collum_start_indicies lastLine).getD i 0)).take
              ((if i = (Day06.Part2.collum_start_indicies lastLine).length - 1
                then lastLine.length
                else (Day06.Part2.collum_start_indicies lastLine).getD (i + 1) 0 - 1)
                - (Day06.Part2.collum_start_indicies lastLine).getD i 0)) := by
      intro i hi
      rw [List.mem_range] at hi
      apply Day06.mapOption_eq_some_of
      intro line hline
      unfold Day06.Part2.sliceTo
      rw [if_pos ⟨(hbounds i hi).1, le_trans (hbounds i hi).2 (hlen line hline)⟩]
    have houter := Day06.mapOption_eq_some_of _ _
      (List.range (Day06.Part2.collum_start_indicies lastLine).length) hinner
    refine ⟨_, houter, ?_, ?_⟩
    · rw [List.length_map, List.length_range]
      unfold Day06.Part2.collum_start_indicies
      exact (List.countP_eq_length_filter _ _).symm
    · intro i hi
      rw [List.length_map, List.length_range] at hi
      have hget : ((List.range (Day06.Part2.collum_start_indicies lastLine).length).map
          fun i => (rustLines input).map fun line =>
            (line.drop ((Day06.Part2.collum_start_indicies lastLine).getD i 0)).take
              ((if i = (Day06.Part2.collum_start_indicies lastLine).length - 1
                then lastLine.length
                else (Day06.Part2.collum_start_indicies lastLine).getD (i + 1) 0 - 1)
                - (Day06.Part2.collum_start_indicies lastLine).getD i 0)).getD i []
          = (rustLines input).map fun line =>
            (line.drop ((Day06.Part2.collum_start_indicies lastLine).getD i 0)).take
              ((if i = (Day06.Part2.collum_start_indicies lastLine).length - 1
                then lastLine.length
                else (Day06.Part2.collum_start_indicies lastLine).getD (i + 1) 0 - 1)
                - (Day06.Part2.collum_start_indicies lastLine).getD i 0) := by
        rw [List.getD_eq_getElem _ _ (by rw [List.length_map, List.length_range]; exact hi)]
        rw [List.getElem_map]
        rw [List.getElem_range]
      rw [hget]
      refine ⟨by rw [List.length_map], ?_⟩
      intro j hj
      rw [List.getD_eq_getElem _ _ (by rw [List.length_map]; exact hj)]
      rw [List.getElem_map]
      rw [List.getD_eq_getElem _ _ hj]
  · decide


/-- Witness for C5's structural part at the section 8 sample grid. -/
theorem day06_extract_columns_spec_witness :
    (rustLines ("123 328  51 64 \n 45 64  387 23 \n  6 98  215 314\n*   +   *   +  ".toList)).getLast?
        = some ("*   +   *   +  ".toList)
    ∧ ∃ cols,
      Day06.Part2.extract_columns
          ("123 328  51 64 \n 45 64  387 23 \n  6 98  215 314\n*   +   *   +  ".toList)
        = some cols ∧
      cols.length = (List.range ("*   +   *   +  ".toList).length).countP
        (fun i => ("*   +   *   +  ".toList).getD i ' ' != ' ') ∧
      ∀ i, i < cols.length →
        (cols.getD i []).length
            = (rustLines ("123 328  51 64 \n 45 64  387 23 \n  6 98  215 314\n*   +   *   +  ".toList)).length ∧
        ∀ j, j < (rustLines ("123 328  51 64 \n 45 64  387 23 \n  6 98  215 314\n*   +   *   +  ".toList)).length →
          (cols.getD i []).getD j []
            = (((rustLines ("123 328  51 64 \n 45 64  387 23 \n  6 98  215 314\n*   +   *   +  ".toList)).getD j []).drop
                ((Day06.Part2.collum_start_indicies ("*   +   *   +  ".toList)).getD i 0)).take
                ((if i = (Day06.Part2.collum_start_indicies ("*   +   *   +  ".toList)).length - 1
                  then ("*   +   *   +  ".toList).length
                  else (Day06.Part2.collum_start_indicies ("*   +   *   +  ".toList)).getD (i + 1) 0 - 1)
                  - (Day06.Part2.collum_start_indicies ("*   +   *   +  ".toList)).getD i 0) :=
  ⟨by decide, day06_extract_columns_spec.1
    ("123 328  51 64 \n 45 64  387 23 \n  6 98  215 314\n*   +   *   +  ".toList)
    ("*   +   *   +  ".toList) (by decide) (by decide) (by decide)⟩

end AOC

